import Mathlib

/-!
Shallow embedding of the trivia repository (two Python source files:
the Ollama multi-model benchmark harness and the Open Trivia DB downloader).
Strings are modelled as lists of characters; the ASCII fragments of the
Python string/regex primitives used by the source are embedded directly.
-/

namespace Trivia

/-- The whitespace characters stripped by Python str.strip (ASCII fragment). -/
def pyWsChar (c : Char) : Bool :=
  c = ' ' || c = '\t' || c = '\n' || c = '\r' || c = '\x0b' || c = '\x0c'

/-- Python str.strip on a character list. -/
def strip (s : List Char) : List Char :=
  ((s.dropWhile pyWsChar).reverse.dropWhile pyWsChar).reverse

/-- Python substring containment, the `pat in s` test on strings. -/
def containsSub (pat : List Char) : List Char → Bool
  | [] => pat.isEmpty
  | c :: rest => pat.isPrefixOf (c :: rest) || containsSub pat rest

/-- The closing marker of a reasoning block, the literal searched for by
extract_letter_choice. -/
def thinkMarker : List Char := "</think>".data

/-- Python response.split(marker) for the reasoning-block marker:
non-overlapping splits scanned left to right.  The fuel argument (input
length plus one at the top level) only paces the scan, which consumes at
least one character per step. -/
def splitMarkerF : Nat → List Char → List (List Char)
  | 0, _ => [[]]
  | fuel + 1, s =>
    match s with
    | [] => [[]]
    | c :: rest =>
      if thinkMarker.isPrefixOf (c :: rest) then
        [] :: splitMarkerF fuel ((c :: rest).drop thinkMarker.length)
      else
        match splitMarkerF fuel rest with
        | [] => [[c]]
        | p :: ps => (c :: p) :: ps

/-- Python response.split(marker). -/
def splitMarker (s : List Char) : List (List Char) := splitMarkerF (s.length + 1) s

/-- Python str.split for a one-character separator. -/
def splitOnChar (sep : Char) : List Char → List (List Char)
  | [] => [[]]
  | c :: rest =>
    match splitOnChar sep rest with
    | [] => [[]]
    | p :: ps => if c = sep then [] :: p :: ps else (c :: p) :: ps

/-- Python regex word character \w (ASCII fragment: alphanumeric or underscore). -/
def isWordChar (c : Char) : Bool := c.isAlphanum || c = '_'

/-- Membership of an (uppercase) character in the option-letter class [ABCD]. -/
def isOptionLetter (c : Char) : Bool :=
  c = 'A' || c = 'B' || c = 'C' || c = 'D'

/-- re.findall of the standalone-letter pattern over an already uppercased text:
single characters among A/B/C/D delimited on both sides by a word boundary.
`prev` is the character to the left of the scan position (none at text start). -/
def standaloneLetters (prev : Option Char) : List Char → List Char
  | [] => []
  | c :: rest =>
    let boundaryL := match prev with | none => true | some p => !isWordChar p
    let boundaryR := match rest.head? with | none => true | some n => !isWordChar n
    if isOptionLetter c && boundaryL && boundaryR then
      c :: standaloneLetters (some c) rest
    else
      standaloneLetters (some c) rest

/-- The test re.match applied to an anchored single-letter pattern on
line.upper(): the line is exactly one character whose uppercase form is an
option letter. -/
def singleLetterLine (line : List Char) : Bool :=
  match line.map Char.toUpper with
  | [c] => isOptionLetter c
  | _ => false

/-! ### A small backtracking regex engine

The natural-language patterns of extract_letter_choice are compiled by hand
into the following abstract syntax; alternatives are explored in the same
order as a leftmost-first backtracking engine with greedy repetition, which
is the Python re semantics for these patterns.  `cap` is the single
one-character capture group ([ABCD]) that every pattern contains; `nwNext` is
the zero-width word-boundary test after that captured letter (the previous
character is then always a word character, so the boundary holds exactly when
the next character is absent or not a word character). -/

inductive RE : Type where
  | eps : RE
  | cls (p : Char → Bool) : RE
  | cap (p : Char → Bool) : RE
  | seq (a b : RE) : RE
  | alt (a b : RE) : RE
  | opt (a : RE) : RE
  | plus (p : Char → Bool) : RE
  | star (p : Char → Bool) : RE
  | nwNext : RE

/-- Remainders of the input after consuming one or more characters of a class,
longest consumption first (greedy order). -/
def clsTails (p : Char → Bool) : List Char → List (List Char)
  | [] => []
  | c :: rest => if p c then clsTails p rest ++ [rest] else []

/-- All ways a regex can match a prefix of the input, in backtracking priority
order; each result carries the captured letter (if the capture group
participated) and the remaining input. -/
def reMatches : RE → List Char → List (Option Char × List Char)
  | .eps, s => [(none, s)]
  | .cls p, s =>
    match s with
    | [] => []
    | c :: rest => if p c then [(none, rest)] else []
  | .cap p, s =>
    match s with
    | [] => []
    | c :: rest => if p c then [(some c, rest)] else []
  | .seq a b, s =>
    (reMatches a s).flatMap fun pr =>
      (reMatches b pr.2).map fun qr => (pr.1 <|> qr.1, qr.2)
  | .alt a b, s => reMatches a s ++ reMatches b s
  | .opt a, s => reMatches a s ++ [(none, s)]
  | .plus p, s => (clsTails p s).map fun t => (none, t)
  | .star p, s => ((clsTails p s).map fun t => (none, t)) ++ [(none, s)]
  | .nwNext, s =>
    match s with
    | [] => [(none, [])]
    | c :: _ => if isWordChar c then [] else [(none, s)]

/-- The captured letter of a match, as a list (empty if the group is absent). -/
def capsOf (g : Option Char) : List Char :=
  match g with
  | some c => [c]
  | none => []

/-- re.findall: scan the input left to right, take at each position the first
match in backtracking order, emit its capture, and resume after the match
(advancing one character when no progress would be made).  The fuel argument
(input length plus one at the top level) only paces the scan, which advances
at least one character per step. -/
def findAllF (r : RE) : Nat → List Char → List Char
  | 0, _ => []
  | fuel + 1, s =>
    match (reMatches r s).head? with
    | some (g, rest) =>
      if rest.length < s.length then
        capsOf g ++ findAllF r fuel rest
      else
        match s with
        | [] => capsOf g
        | _ :: t => capsOf g ++ findAllF r fuel t
    | none =>
      match s with
      | [] => []
      | _ :: t => findAllF r fuel t

/-- re.findall over the whole input. -/
def findAll (r : RE) (s : List Char) : List Char := findAllF r (s.length + 1) s

/-- A case-insensitive literal word (each character compared lowercased,
modelling re.IGNORECASE). -/
def striSeq : List Char → RE
  | [] => .eps
  | c :: rest => .seq (.cls (fun x => x.toLower = c.toLower)) (striSeq rest)

/-- A case-insensitive literal word from a string literal. -/
def striW (w : String) : RE := striSeq w.data

/-- \s under re.IGNORECASE scanning (ASCII fragment). -/
def wsPlus : RE := .plus pyWsChar

/-- \s* (ASCII fragment). -/
def wsStar : RE := .star pyWsChar

/-- The capture group ([ABCD]) under re.IGNORECASE. -/
def capABCD : RE := .cap (fun c => isOptionLetter c.toUpper)

/-- Pattern (the\s+)?(correct\s+)?answer\s+is\s+([ABCD])\b of the
answer_patterns list (outer groups non-capturing). -/
def patAnswerIs : RE :=
  .seq (.opt (.seq (striW "the") wsPlus))
    (.seq (.opt (.seq (striW "correct") wsPlus))
      (.seq (striW "answer")
        (.seq wsPlus (.seq (striW "is") (.seq wsPlus (.seq capABCD .nwNext))))))

/-- Pattern (choose|select)\s+([ABCD])\b. -/
def patChoose : RE :=
  .seq (.alt (striW "choose") (striW "select")) (.seq wsPlus (.seq capABCD .nwNext))

/-- Pattern option\s+([ABCD])\b. -/
def patOption : RE :=
  .seq (striW "option") (.seq wsPlus (.seq capABCD .nwNext))

/-- Pattern ([ABCD])\s*is\s+(the\s+)?(correct\s+)?(answer|choice). -/
def patIsAnswer : RE :=
  .seq capABCD
    (.seq wsStar
      (.seq (striW "is")
        (.seq wsPlus
          (.seq (.opt (.seq (striW "the") wsPlus))
            (.seq (.opt (.seq (striW "correct") wsPlus))
              (.alt (striW "answer") (striW "choice")))))))

/-- Pattern (my\s+)?(final\s+)?(answer|choice)(\s+is)?\s*:?\s*([ABCD])\b. -/
def patFinalAnswer : RE :=
  .seq (.opt (.seq (striW "my") wsPlus))
    (.seq (.opt (.seq (striW "final") wsPlus))
      (.seq (.alt (striW "answer") (striW "choice"))
        (.seq (.opt (.seq wsPlus (striW "is")))
          (.seq wsStar
            (.seq (.opt (.cls (fun c => c = ':')))
              (.seq wsStar (.seq capABCD .nwNext)))))))

/-- The answer_patterns list of extract_letter_choice, in source order. -/
def answer_patterns : List RE :=
  [patAnswerIs, patChoose, patOption, patIsAnswer, patFinalAnswer]

/-- Broader pattern ([ABCD])\). -/
def patParenAfter : RE := .seq capABCD (.cls (fun c => c = ')'))

/-- Broader pattern \(([ABCD])\). -/
def patParenBoth : RE :=
  .seq (.cls (fun c => c = '(')) (.seq capABCD (.cls (fun c => c = ')')))

/-- Broader pattern letter\s+([ABCD]). -/
def patLetter : RE := .seq (striW "letter") (.seq wsPlus capABCD)

/-- Broader pattern option\s+([ABCD]) (no trailing word boundary). -/
def patOptionLoose : RE := .seq (striW "option") (.seq wsPlus capABCD)

/-- The broader_patterns list of extract_letter_choice, in source order. -/
def broader_patterns : List RE :=
  [patParenAfter, patParenBoth, patLetter, patOptionLoose]

/-- matches[-1].upper() on the capture list produced by re.findall. -/
def lastCapUpper (ms : List Char) : Option String :=
  match ms.getLast? with
  | some c => some (String.mk [c.toUpper])
  | none => none

/-- The text after the last reasoning-block marker, stripped:
parts[-1].strip() for parts = response.split(marker). -/
def postThink (response : List Char) : List Char :=
  strip ((splitMarker response).getLastD [])

/-- The per-line test of step 1: strip the line and, when it is exactly a
single option letter, return line.upper(). -/
def lineLetter (line : List Char) : Option String :=
  if singleLetterLine (strip line) then some (String.mk ((strip line).map Char.toUpper))
  else none

/-- The per-line test of step 2, which additionally requires the stripped
line to be nonempty (the `if line and re.match(...)` guard). -/
def lineLetterNE (line : List Char) : Option String :=
  if !(strip line).isEmpty && singleLetterLine (strip line) then
    some (String.mk ((strip line).map Char.toUpper))
  else none

/-- Step 1 of extract_letter_choice applied to the stripped post-marker text:
first a line that is exactly a single option letter, else the last standalone
letter token of the uppercased suffix. -/
def step1Result (post : List Char) : Option String :=
  match (splitOnChar '\n' post).findSome? lineLetter with
  | some r => some r
  | none =>
    match (standaloneLetters none (post.map Char.toUpper)).getLast? with
    | some c => some (String.mk [c])
    | none => none

/-- Step 2 of extract_letter_choice: scan the lines of the whole (stripped)
response in reverse for a nonempty line that is exactly a single option
letter. -/
def step2Result (response : List Char) : Option String :=
  (splitOnChar '\n' (strip response)).reverse.findSome? lineLetterNE

/-- MultiModelTriviaComparison.extract_letter_choice: extract the chosen
option letter from a free-form model response, or none when no heuristic
finds one. -/
def extract_letter_choice (ai_response : String) : Option String :=
  let response := strip ai_response.data
  let step1 : Option String :=
    if containsSub thinkMarker response then
      if (splitMarker response).length > 1 then
        step1Result (postThink response)
      else none
    else none
  match step1 with
  | some r => some r
  | none =>
    match step2Result response with
    | some r => some r
    | none =>
      match answer_patterns.findSome? (fun p => lastCapUpper (findAll p response)) with
      | some r => some r
      | none =>
        match (standaloneLetters none (response.map Char.toUpper)).getLast? with
        | some c => some (String.mk [c])
        | none =>
          broader_patterns.findSome? (fun p => lastCapUpper (findAll p response))

/-! ### ask_model -/

/-- The outcome of the single blocking HTTP POST issued by ask_model:
a response with a status code and the parsed response field of its JSON
body, a requests timeout, or any other raised exception (carrying str(e)). -/
inductive HttpOutcome : Type where
  | ok (status : Nat) (responseField : String)
  | timeout
  | exn (msg : String)
deriving DecidableEq

/-- Python sep.join(l). -/
def joinSep (sep : String) : List String → String
  | [] => ""
  | x :: xs => xs.foldl (fun acc y => acc ++ sep ++ y) x

/-- MultiModelTriviaComparison.ask_model: select per-model-family generation
parameters by case-insensitive substring match on the model name, then
classify the outcome of the one HTTP request.  The network is abstracted by
the HttpOutcome argument; floats are modelled as exact rationals. -/
def ask_model (model_name prompt : String) (outcome : HttpOutcome) : Bool × String :=
  let lowerName : List Char := model_name.data.map Char.toLower
  let (timeout, _max_tokens, _temperature) : Nat × Nat × ℚ :=
    if containsSub "deepseek".data lowerName then (120, 2000, 0)
    else if containsSub "qwen".data lowerName then
      (60, if containsSub "0.6b".data model_name.data then 500 else 1000, 1/10)
    else if containsSub "codellama".data lowerName then (45, 300, 1/10)
    else if containsSub "llama".data lowerName then (45, 300, 1/10)
    else if containsSub "gemma".data lowerName then (45, 300, 1/10)
    else if containsSub "mistral".data lowerName then (45, 300, 1/10)
    else (30, 300, 1/10)
  let _enhanced_prompt : String :=
    prompt ++ "\n\n    IMPORTANT: After your reasoning, provide your final answer as just the letter (A, B, C, or D) on a new line."
  match outcome with
  | .ok status body =>
    if status = 200 then (true, String.mk (strip body.data))
    else (false, "HTTP " ++ toString status)
  | .timeout => (false, "TIMEOUT (" ++ toString timeout ++ "s)")
  | .exn m => (false, "ERROR: " ++ String.mk (m.data.take 50))

/-! ### The random source and shuffle

The CPython Mersenne Twister behind random.seed / random.shuffle is a
deterministic generator whose exact stream none of the claims depend on; it
is modelled by a linear congruential generator.  What is kept faithful is the
structure: a single global state seeded once from the fixed constant and
threaded through every draw, and the Fisher-Yates loop of random.shuffle. -/

/-- The global random generator state. -/
abbrev RngState := Nat

/-- random.seed(n): reinitialise the global generator deterministically from
the seed. -/
def seedRng (n : Nat) : RngState := n

/-- One generator step (stands in for the Mersenne Twister update). -/
def lcgNext (g : RngState) : RngState := (g * 1103515245 + 12345) % 2147483648

/-- random._randbelow(n): a value uniform in [0, n) and the advanced state. -/
def randbelow (n : Nat) (g : RngState) : Nat × RngState :=
  let g' := lcgNext g
  (if n = 0 then 0 else g' % n, g')

/-- Swap the elements at positions i and j (the tuple assignment
x[i], x[j] = x[j], x[i]); indices are always in bounds at the call sites. -/
def swapL {α : Type} (l : List α) (i j : Nat) : List α :=
  match l.get? i, l.get? j with
  | some a, some b => (l.set i b).set j a
  | _, _ => l

/-- The loop of random.shuffle: for i = len-1 down to 1, draw
j = randbelow(i+1) and swap x[i] with x[j].  The Nat argument is the current
loop variable i (0 means the loop is finished). -/
def shuffleAux {α : Type} : List α → RngState → Nat → List α × RngState
  | x, g, 0 => (x, g)
  | x, g, i + 1 =>
    let (j, g') := randbelow (i + 2) g
    shuffleAux (swapL x (i + 1) j) g' i

/-- random.shuffle on a copy of the list, returning the shuffled list and the
advanced generator state. -/
def pyShuffle {α : Type} (x : List α) (g : RngState) : List α × RngState :=
  shuffleAux x g (x.length - 1)

/-! ### prepare_questions -/

/-- One row of the loaded trivia CSV (a pandas row).  A missing column or a
NaN cell is modelled as none. -/
structure Row where
  question : String
  correct_answer : String
  incorrect_answer_1 : Option String
  incorrect_answer_2 : Option String
  incorrect_answer_3 : Option String
  category : Option String
  difficulty : Option String
deriving DecidableEq

/-- The prepared question record built by prepare_questions. -/
structure PreparedQuestion where
  index : Nat
  question : String
  correct_answer : String
  correct_letter : Option String
  options : List String
  prompt : String
  category : String
  difficulty : String
  shuffled_answers : List String
deriving DecidableEq

/-- The incorrect_answer_1..3 collection loop: keep a cell when the column is
present, the value is not NaN, and the value does not strip to the empty
string; the original (unstripped) value is kept. -/
def usableIncorrects (r : Row) : List String :=
  [r.incorrect_answer_1, r.incorrect_answer_2, r.incorrect_answer_3].filterMap fun a =>
    match a with
    | none => none
    | some s => if strip s.data = [] then none else some s

/-- The letter-assignment loop over the shuffled answers: emit the option
strings "X) answer" and remember the letter of the (last) position holding
the correct answer. -/
def optLoop (correct : String) :
    Nat → Option String → List String → List String → Option String × List String
  | _, correct_letter, options, [] => (correct_letter, options)
  | i, correct_letter, options, answer :: rest =>
    let letter := String.mk [Char.ofNat (65 + i)]
    let options := options ++ [letter ++ ") " ++ answer]
    let correct_letter := if answer = correct then some letter else correct_letter
    optLoop correct (i + 1) correct_letter options rest

/-- Assign letters A.. to the shuffled answers, starting from index 0. -/
def buildOptions (correct : String) (shuffled : List String) :
    Option String × List String :=
  optLoop correct 0 none [] shuffled

/-- The prompt f-string of prepare_questions. -/
def mkPrompt (question : String) (options : List String) : String :=
  "You are a helpful assistant answering trivia questions. Answer with ONLY the letter (A, B, C, or D) that corresponds to the correct answer.\n\nQUESTION: "
    ++ question ++ "\n\nOPTIONS:\n" ++ joinSep "\n" options
    ++ "\n\nThink through this step by step if needed, but end your response with just the letter of the correct answer."

/-- The row loop of prepare_questions, threading the generator state and the
accumulated list (whose length feeds the 1-based index of the next record). -/
def prepareLoop : List Row → RngState → List PreparedQuestion → List PreparedQuestion
  | [], _, prepared => prepared
  | row :: rest, g, prepared =>
    let incorrect_answers := usableIncorrects row
    if incorrect_answers.length < 2 then
      prepareLoop rest g prepared
    else
      let all_answers := row.correct_answer :: incorrect_answers
      let (shuffled_answers, g') := pyShuffle all_answers g
      let (correct_letter, options) := buildOptions row.correct_answer shuffled_answers
      let pq : PreparedQuestion :=
        { index := prepared.length + 1
          question := row.question
          correct_answer := row.correct_answer
          correct_letter := correct_letter
          options := options
          prompt := mkPrompt row.question options
          category := row.category.getD "Unknown"
          difficulty := row.difficulty.getD "Unknown"
          shuffled_answers := shuffled_answers }
      prepareLoop rest g' (prepared ++ [pq])

/-- The df.head(max_questions) cap applied when max_questions is truthy (a
value of 0 or None is falsy in Python and does not cap). -/
def cappedRows (df : List Row) (max_questions : Option Nat) : List Row :=
  match max_questions with
  | some n => if n ≠ 0 then df.take n else df
  | none => df

/-- MultiModelTriviaComparison.prepare_questions.  The first argument is the
ambient global generator state at entry, which the function immediately
overwrites via random.seed(42). -/
def prepare_questions (g : RngState) (df : List Row) (max_questions : Option Nat) :
    List PreparedQuestion :=
  let df := cappedRows df max_questions
  let _ := g
  prepareLoop df (seedRng 42) []

/-! ### The per-model worker -/

/-- A model descriptor as listed by the Ollama tags endpoint. -/
structure ModelInfo where
  name : String
  size : Nat
deriving DecidableEq

/-- One row of the detailed results (response_time, a constant None in the
source, is omitted). -/
structure AnswerRecord where
  model : String
  question_num : Nat
  category : String
  difficulty : String
  question : String
  correct_answer : String
  correct_letter : Option String
  ai_response : String
  ai_letter : String
  is_correct : Bool
  options : String
deriving DecidableEq

/-- The mutable locals of test_single_model_threaded. -/
structure WorkerState where
  results : List AnswerRecord
  correct_count : Nat
  total_count : Nat
  extraction_failures : Nat
deriving DecidableEq

/-- One iteration of the question loop of test_single_model_threaded.  The
network behaviour is abstracted by net, mapping each prompt to the outcome of
the HTTP request that ask_model issues for it. -/
def workerStep (model_name : String) (net : String → HttpOutcome)
    (st : WorkerState) (q : PreparedQuestion) : WorkerState :=
  let total_count := st.total_count + 1
  let (success, ai_response) := ask_model model_name q.prompt (net q.prompt)
  if success then
    match extract_letter_choice ai_response with
    | none =>
      let record : AnswerRecord :=
        { model := model_name
          question_num := total_count
          category := q.category
          difficulty := q.difficulty
          question := q.question
          correct_answer := q.correct_answer
          correct_letter := q.correct_letter
          ai_response := ai_response
          ai_letter := "NONE"
          is_correct := false
          options := joinSep "; " q.options }
      { results := st.results ++ [record]
        correct_count := st.correct_count
        total_count := total_count
        extraction_failures := st.extraction_failures + 1 }
    | some ai_letter =>
      let is_correct : Bool := some ai_letter = q.correct_letter
      let record : AnswerRecord :=
        { model := model_name
          question_num := total_count
          category := q.category
          difficulty := q.difficulty
          question := q.question
          correct_answer := q.correct_answer
          correct_letter := q.correct_letter
          ai_response := ai_response
          ai_letter := ai_letter
          is_correct := is_correct
          options := joinSep "; " q.options }
      { results := st.results ++ [record]
        correct_count := st.correct_count + (if is_correct then 1 else 0)
        total_count := total_count
        extraction_failures := st.extraction_failures }
  else
    let record : AnswerRecord :=
      { model := model_name
        question_num := total_count
        category := q.category
        difficulty := q.difficulty
        question := q.question
        correct_answer := q.correct_answer
        correct_letter := q.correct_letter
        ai_response := ai_response
        ai_letter := "ERROR"
        is_correct := false
        options := joinSep "; " q.options }
    { results := st.results ++ [record]
      correct_count := st.correct_count
      total_count := total_count
      extraction_failures := st.extraction_failures }

/-- MultiModelTriviaComparison.test_single_model_threaded: iterate the shared
prepared questions in order, accumulate records and counters, and report
(results, final_accuracy, model_info); final_accuracy is the float
(correct_count / total_count) * 100, modelled as an exact rational. -/
def test_single_model_threaded (net : String → HttpOutcome)
    (model_info : ModelInfo) (prepared_questions : List PreparedQuestion) :
    List AnswerRecord × ℚ × ModelInfo :=
  let st := prepared_questions.foldl (workerStep model_info.name net)
    { results := [], correct_count := 0, total_count := 0, extraction_failures := 0 }
  let final_accuracy : ℚ :=
    if st.total_count > 0 then ((st.correct_count : ℚ) / (st.total_count : ℚ)) * 100
    else 0
  (st.results, final_accuracy, model_info)

/-! ### The fetcher (download_all_4620) -/

/-- A question object returned by the Open Trivia DB API (only the fields the
dedup key reads are modelled). -/
structure FetchedQ where
  question : String
  correct_answer : String
deriving DecidableEq

/-- The dedup key f-string question|answer over the html.unescape of both
fields; html.unescape is abstracted as the function unesc. -/
def uniqueKey (unesc : String → String) (q : FetchedQ) : String :=
  unesc q.question ++ "|" ++ unesc q.correct_answer

/-- The merge loop of download_all_4620 over one successful batch: append a
question and record its key only when the key is not yet in the unique set
(the set is modelled as the list of keys in insertion order). -/
def mergeLoop (unesc : String → String) :
    List FetchedQ → List FetchedQ → List String → Nat → List FetchedQ × List String × Nat
  | [], all_questions, unique_questions, new_count =>
    (all_questions, unique_questions, new_count)
  | q :: rest, all_questions, unique_questions, new_count =>
    let key := uniqueKey unesc q
    if key ∈ unique_questions then
      mergeLoop unesc rest all_questions unique_questions new_count
    else
      mergeLoop unesc rest (all_questions ++ [q]) (unique_questions ++ [key]) (new_count + 1)

/-- Merge one successful batch into the accumulated state, counting the newly
added questions. -/
def mergeBatch (unesc : String → String) (all_questions : List FetchedQ)
    (unique_questions : List String) (batch : List FetchedQ) :
    List FetchedQ × List String × Nat :=
  mergeLoop unesc batch all_questions unique_questions 0

/-- The classified outcome of one get_questions_batch call, together with the
outcome of the token recovery that download_all_4620 performs on
token_empty (reset succeeded, or a fresh token was obtained). -/
inductive BatchOutcome : Type where
  | success (qs : List FetchedQ)
  | tokenEmpty (recovered : Bool)
  | rateLimit
  | noResults
  | otherErr

/-- The loop state of download_all_4620 (sleeps, prints and the batch counter,
which only paces maintenance sleeps, are dropped). -/
structure FetchState where
  all_questions : List FetchedQ
  unique_questions : List String
  consecutive_empty : Nat
deriving DecidableEq

/-- self.total_target. -/
def total_target : Nat := 4620

/-- One iteration body of the download_all_4620 while loop. -/
def fetchStep (unesc : String → String) (st : FetchState) (o : BatchOutcome) :
    FetchState :=
  match o with
  | .success qs =>
    if qs.isEmpty then
      { st with consecutive_empty := st.consecutive_empty + 1 }
    else
      let (all', uniq', new_count) :=
        mergeBatch unesc st.all_questions st.unique_questions qs
      { all_questions := all'
        unique_questions := uniq'
        consecutive_empty := if new_count > 0 then 0 else st.consecutive_empty + 1 }
  | .tokenEmpty recovered =>
    if recovered then { st with consecutive_empty := 0 }
    else { st with consecutive_empty := st.consecutive_empty + 1 }
  | .rateLimit => { st with consecutive_empty := st.consecutive_empty + 1 }
  | .noResults => { st with consecutive_empty := st.consecutive_empty + 1 }
  | .otherErr => { st with consecutive_empty := st.consecutive_empty + 1 }

/-- The while guard of download_all_4620:
len(all_questions) < total_target and consecutive_empty < 15. -/
def fetchGuard (st : FetchState) : Bool :=
  st.all_questions.length < total_target && st.consecutive_empty < 15

/-- Run the download_all_4620 loop for at most fuel iterations against an
environment stream of batch outcomes, stopping as the guard directs. -/
def fetchRun (unesc : String → String) (env : Nat → BatchOutcome) :
    Nat → Nat → FetchState → FetchState
  | _, 0, st => st
  | i, fuel + 1, st =>
    if fetchGuard st then fetchRun unesc env (i + 1) fuel (fetchStep unesc st (env i))
    else st

/-! ## Helper lemmas about the reasoning-block split -/

theorem splitMarkerF_ne_nil (fuel : Nat) (s : List Char) : splitMarkerF fuel s ≠ [] := by
  match fuel, s with
  | 0, s => simp [splitMarkerF]
  | fuel + 1, [] => simp [splitMarkerF]
  | fuel + 1, c :: rest =>
    simp only [splitMarkerF]
    split
    · simp
    · split <;> simp

theorem splitMarkerF_length_of_contains :
    ∀ (fuel : Nat) (s : List Char), containsSub thinkMarker s = true →
      s.length < fuel → 1 < (splitMarkerF fuel s).length := by
  intro fuel
  induction fuel with
  | zero => intro s _ h; omega
  | succ fuel ih =>
    intro s hc hlen
    match s with
    | [] => simp [containsSub, thinkMarker] at hc
    | c :: rest =>
      simp only [containsSub, Bool.or_eq_true] at hc
      simp only [splitMarkerF]
      split
      · have h1 := splitMarkerF_ne_nil fuel ((c :: rest).drop thinkMarker.length)
        have h2 := List.length_pos.mpr h1
        simp only [List.length_cons]
        omega
      · rename_i hpre
        have hc' : containsSub thinkMarker rest = true := by
          rcases hc with h | h
          · exact absurd h hpre
          · exact h
        have hr : rest.length < fuel := by
          simp only [List.length_cons] at hlen; omega
        have := ih rest hc' hr
        split
        · rename_i heq
          exact absurd heq (splitMarkerF_ne_nil fuel rest)
        · rename_i p ps heq
          rw [heq] at this
          simpa using this

theorem splitMarker_length_of_contains (s : List Char)
    (h : containsSub thinkMarker s = true) : 1 < (splitMarker s).length :=
  splitMarkerF_length_of_contains (s.length + 1) s h (by omega)

/-! ## C1 -/

/-- C1 (amended): if a response contains the reasoning-block closing marker
and the stripped text after its last occurrence yields a letter by step 1 of
extract_letter_choice (a line that is exactly a single option letter, else
the last standalone letter token of the suffix), then the extraction result
is exactly that step-1 value, which is a function of the post-marker suffix
alone; when the suffix yields no letter, the extractor instead falls through
to the later heuristics over the whole text, so text before the marker can
then determine the result (see the counterexample). -/
theorem extract_think_suffix_determined (s : String)
    (hmark : containsSub thinkMarker (strip s.data) = true)
    (hsome : (step1Result (postThink (strip s.data))).isSome = true) :
    extract_letter_choice s = step1Result (postThink (strip s.data)) := by
  have hlen : 1 < (splitMarker (strip s.data)).length :=
    splitMarker_length_of_contains _ hmark
  unfold extract_letter_choice
  simp only [hmark, if_true, gt_iff_lt, hlen, if_pos]
  cases hr : step1Result (postThink (strip s.data)) with
  | some r => simp
  | none => rw [hr] at hsome; simp at hsome

/-- Witness for C1 at the spec's own example input. -/
theorem extract_think_suffix_determined_witness :
    extract_letter_choice "blah</think>\n The answer is D." =
      step1Result (postThink (strip "blah</think>\n The answer is D.".data)) :=
  extract_think_suffix_determined "blah</think>\n The answer is D." rfl rfl

/-- C1 counterexample: two responses whose texts after the last marker are
identical ("nothing here", which contains no option letter) extract different
letters, taken by the fallback heuristics from the text before the marker; so
the text before the marker does determine the result for such inputs. -/
theorem extract_think_prefix_leak_cex :
    postThink (strip "The answer is B</think> nothing here".data) =
      postThink (strip "choose C</think> nothing here".data) ∧
    extract_letter_choice "The answer is B</think> nothing here" = some "B" ∧
    extract_letter_choice "choose C</think> nothing here" = some "C" :=
  ⟨rfl, rfl, rfl⟩

/-! ## C6 -/

/-- C6: with no reasoning block and no exactly-single-letter line, the
natural-language pattern stage extracts the letter, taking the last match of
the first pattern that matches: the "final answer" example yields C, and on
an input where the option pattern matches twice the later match (B) wins. -/
theorem extract_pattern_last_match :
    extract_letter_choice "I think it could be A or C, final answer C)" = some "C" ∧
    findAll patFinalAnswer "I think it could be A or C, final answer C)".data = ['C'] ∧
    extract_letter_choice "option A or option B" = some "B" ∧
    findAll patOption "option A or option B".data = ['A', 'B'] :=
  ⟨rfl, rfl, rfl, rfl⟩

/-! ## C3 -/

/-- C3: prepare_questions is deterministic: its output does not depend on the
ambient global random generator state, because the generator is re-seeded
with the fixed constant 42 at the start of every run, so two runs on
identical input (same rows, same cap) produce identical outputs: the same
questions in the same order with the same shuffled option orderings and the
same correct letters. -/
theorem prepare_questions_deterministic (g1 g2 : RngState) (df : List Row)
    (max_questions : Option Nat) :
    prepare_questions g1 df max_questions = prepare_questions g2 df max_questions := rfl

/-! ## C9 -/

/-- C9: ask_model is a total function of the one HTTP outcome: it returns
success exactly for a status-200 response (with the stripped response text),
a timeout message on timeout, failure on any non-200 status, and on a raised
exception a failure whose exception portion str(e) is truncated to at most 50
characters. -/
theorem ask_model_total (model_name prompt : String) (outcome : HttpOutcome) :
    ((ask_model model_name prompt outcome).1 = true ↔
      ∃ body, outcome = .ok 200 body ∧
        (ask_model model_name prompt outcome).2 = String.mk (strip body.data)) ∧
    (outcome = .timeout →
      (ask_model model_name prompt outcome).1 = false ∧
      ∃ t : Nat, (ask_model model_name prompt outcome).2 = "TIMEOUT (" ++ toString t ++ "s)") ∧
    (∀ status body, outcome = .ok status body → status ≠ 200 →
      (ask_model model_name prompt outcome).1 = false ∧
      (ask_model model_name prompt outcome).2 = "HTTP " ++ toString status) ∧
    (∀ m, outcome = .exn m →
      (ask_model model_name prompt outcome).1 = false ∧
      (ask_model model_name prompt outcome).2 = "ERROR: " ++ String.mk (m.data.take 50) ∧
      (m.data.take 50).length ≤ 50) := by
  refine ⟨?_, ?_, ?_, ?_⟩
  · constructor
    · intro h
      cases outcome with
      | ok status body =>
        by_cases h200 : status = 200
        · subst h200
          exact ⟨body, rfl, by simp [ask_model]⟩
        · simp [ask_model, h200] at h
      | timeout => simp [ask_model] at h
      | exn m => simp [ask_model] at h
    · rintro ⟨body, rfl, _⟩
      simp [ask_model]
  · rintro rfl
    exact ⟨by simp [ask_model], _, rfl⟩
  · rintro status body rfl h200
    exact ⟨by simp [ask_model, h200], by simp [ask_model, h200]⟩
  · rintro m rfl
    refine ⟨by simp [ask_model], by simp [ask_model], ?_⟩
    simp

/-- Witness for C9: a deepseek-family model timing out yields a failure pair
with a timeout message. -/
theorem ask_model_total_witness :
    (ask_model "deepseek-r1" "p" .timeout).1 = false ∧
    ∃ t : Nat, (ask_model "deepseek-r1" "p" .timeout).2 = "TIMEOUT (" ++ toString t ++ "s)" :=
  (ask_model_total "deepseek-r1" "p" .timeout).2.1 rfl

/-! ## Every extracted letter is a one-character string -/

theorem singleLetterLine_shape (line : List Char) (h : singleLetterLine line = true) :
    ∃ c, line.map Char.toUpper = [c] := by
  unfold singleLetterLine at h
  cases hm : line.map Char.toUpper with
  | nil => rw [hm] at h; simp at h
  | cons c t =>
    cases t with
    | nil => exact ⟨c, rfl⟩
    | cons d t2 => rw [hm] at h; simp at h

theorem lineLetter_length (line : List Char) (r : String) (h : lineLetter line = some r) :
    r.data.length = 1 := by
  unfold lineLetter at h
  split at h
  · rename_i hs
    injection h with h2
    obtain ⟨c, hc⟩ := singleLetterLine_shape _ hs
    rw [← h2]
    simp [hc]
  · exact absurd h (by simp)

theorem lineLetterNE_length (line : List Char) (r : String) (h : lineLetterNE line = some r) :
    r.data.length = 1 := by
  unfold lineLetterNE at h
  split at h
  · rename_i hs
    rw [Bool.and_eq_true] at hs
    injection h with h2
    obtain ⟨c, hc⟩ := singleLetterLine_shape _ hs.2
    rw [← h2]
    simp [hc]
  · exact absurd h (by simp)

theorem lastCapUpper_length (ms : List Char) (r : String) (h : lastCapUpper ms = some r) :
    r.data.length = 1 := by
  unfold lastCapUpper at h
  cases hg : ms.getLast? with
  | none => rw [hg] at h; simp at h
  | some c =>
    rw [hg] at h
    injection h with h2
    rw [← h2]
    rfl

theorem step1Result_length (post : List Char) (r : String)
    (h : step1Result post = some r) : r.data.length = 1 := by
  unfold step1Result at h
  cases hf : (splitOnChar '\n' post).findSome? lineLetter with
  | some r0 =>
    rw [hf] at h
    injection h with h2
    obtain ⟨line, _, hl⟩ := List.exists_of_findSome?_eq_some hf
    rw [h2] at hl
    exact lineLetter_length _ _ hl
  | none =>
    rw [hf] at h
    cases hg : (standaloneLetters none (post.map Char.toUpper)).getLast? with
    | none => rw [hg] at h; simp at h
    | some c =>
      rw [hg] at h
      injection h with h2
      rw [← h2]
      rfl

theorem step2Result_length (response : List Char) (r : String)
    (h : step2Result response = some r) : r.data.length = 1 := by
  unfold step2Result at h
  obtain ⟨line, _, hl⟩ := List.exists_of_findSome?_eq_some h
  exact lineLetterNE_length _ _ hl

/-- Every letter returned by extract_letter_choice is a one-character string
(so in particular it is never the four-character sentinels NONE or ERROR). -/
theorem extract_length (s : String) (r : String)
    (h : extract_letter_choice s = some r) : r.data.length = 1 := by
  unfold extract_letter_choice at h
  dsimp only at h
  split at h
  · rename_i r1 heq
    injection h with h2
    rw [h2] at heq
    split at heq
    · split at heq
      · exact step1Result_length _ _ heq
      · exact absurd heq (by simp)
    · exact absurd heq (by simp)
  · split at h
    · rename_i r2 heq
      injection h with h2
      rw [← h2]
      exact step2Result_length _ _ heq
    · split at h
      · rename_i r3 heq
        injection h with h2
        rw [h2] at heq
        obtain ⟨p, _, hp⟩ := List.exists_of_findSome?_eq_some heq
        exact lastCapUpper_length _ _ hp
      · split at h
        · rename_i c heq
          injection h with h2
          rw [← h2]
          rfl
        · obtain ⟨p, _, hp⟩ := List.exists_of_findSome?_eq_some h
          exact lastCapUpper_length _ _ hp

/-! ## Worker lemmas -/

/-- The record that one iteration of the worker loop appends for question q
asked as question number n (a restatement of the three record literals of
test_single_model_threaded, used to state the loop lemmas). -/
def recordFor (model_name : String) (net : String → HttpOutcome) (n : Nat)
    (q : PreparedQuestion) : AnswerRecord :=
  let (success, ai_response) := ask_model model_name q.prompt (net q.prompt)
  if success then
    match extract_letter_choice ai_response with
    | none =>
      { model := model_name
        question_num := n
        category := q.category
        difficulty := q.difficulty
        question := q.question
        correct_answer := q.correct_answer
        correct_letter := q.correct_letter
        ai_response := ai_response
        ai_letter := "NONE"
        is_correct := false
        options := joinSep "; " q.options }
    | some ai_letter =>
      { model := model_name
        question_num := n
        category := q.category
        difficulty := q.difficulty
        question := q.question
        correct_answer := q.correct_answer
        correct_letter := q.correct_letter
        ai_response := ai_response
        ai_letter := ai_letter
        is_correct := some ai_letter = q.correct_letter
        options := joinSep "; " q.options }
  else
    { model := model_name
      question_num := n
      category := q.category
      difficulty := q.difficulty
      question := q.question
      correct_answer := q.correct_answer
      correct_letter := q.correct_letter
      ai_response := ai_response
      ai_letter := "ERROR"
      is_correct := false
      options := joinSep "; " q.options }

/-- The records a worker produces for a question list, where n is the value
of total_count before the first of them is asked. -/
def recordsFor (model_name : String) (net : String → HttpOutcome) :
    Nat → List PreparedQuestion → List AnswerRecord
  | _, [] => []
  | n, q :: rest => recordFor model_name net (n + 1) q :: recordsFor model_name net (n + 1) rest

theorem workerStep_fields (m : String) (net : String → HttpOutcome)
    (st : WorkerState) (q : PreparedQuestion) :
    (workerStep m net st q).results = st.results ++ [recordFor m net (st.total_count + 1) q] ∧
    (workerStep m net st q).total_count = st.total_count + 1 ∧
    (workerStep m net st q).correct_count =
      st.correct_count + (if (recordFor m net (st.total_count + 1) q).is_correct then 1 else 0) := by
  unfold workerStep recordFor
  obtain ⟨success, ai_response⟩ := ask_model m q.prompt (net q.prompt)
  cases success
  · simp
  · cases hx : extract_letter_choice ai_response with
    | none => simp [hx]
    | some l => simp [hx]

theorem recordsFor_length (m : String) (net : String → HttpOutcome) :
    ∀ (qs : List PreparedQuestion) (n : Nat), (recordsFor m net n qs).length = qs.length := by
  intro qs
  induction qs with
  | nil => intro n; simp [recordsFor]
  | cons q rest ih => intro n; simp [recordsFor, ih]

theorem recordsFor_get? (m : String) (net : String → HttpOutcome) :
    ∀ (qs : List PreparedQuestion) (n i : Nat),
      (recordsFor m net n qs).get? i = (qs.get? i).map (recordFor m net (n + i + 1)) := by
  intro qs
  induction qs with
  | nil => intro n i; simp [recordsFor]
  | cons q rest ih =>
    intro n i
    cases i with
    | zero => simp [recordsFor]
    | succ j =>
      simp only [recordsFor, List.get?_cons_succ, ih (n + 1) j]
      have : n + 1 + j + 1 = n + (j + 1) + 1 := by omega
      rw [this]

theorem workerFold_spec (m : String) (net : String → HttpOutcome) :
    ∀ (qs : List PreparedQuestion) (st : WorkerState),
      (qs.foldl (workerStep m net) st).results =
        st.results ++ recordsFor m net st.total_count qs ∧
      (qs.foldl (workerStep m net) st).total_count = st.total_count + qs.length ∧
      (qs.foldl (workerStep m net) st).correct_count =
        st.correct_count + (recordsFor m net st.total_count qs).countP (fun rec => rec.is_correct) := by
  intro qs
  induction qs with
  | nil => intro st; simp [recordsFor]
  | cons q rest ih =>
    intro st
    obtain ⟨h1, h2, h3⟩ := workerStep_fields m net st q
    obtain ⟨ih1, ih2, ih3⟩ := ih (workerStep m net st q)
    simp only [List.foldl_cons]
    refine ⟨?_, ?_, ?_⟩
    · rw [ih1, h1, h2]
      simp [recordsFor]
    · rw [ih2, h2]
      simp only [List.length_cons]
      omega
    · rw [ih3, h3, h2]
      simp only [recordsFor, List.countP_cons]
      ring

theorem recordFor_none_incorrect (m : String) (net : String → HttpOutcome)
    (n : Nat) (q : PreparedQuestion) :
    (recordFor m net n q).ai_letter = "NONE" → (recordFor m net n q).is_correct = false := by
  unfold recordFor
  obtain ⟨success, ai_response⟩ := ask_model m q.prompt (net q.prompt)
  cases success
  · intro h
    simp at h
  · cases hx : extract_letter_choice ai_response with
    | none => intro _; simp [hx]
    | some l =>
      simp only [hx]
      intro h
      have h2 : l = "NONE" := h
      have hlen := extract_length _ _ hx
      rw [h2] at hlen
      exact absurd hlen (by decide)

theorem recordsFor_none_incorrect (m : String) (net : String → HttpOutcome) :
    ∀ (qs : List PreparedQuestion) (n : Nat) (rec : AnswerRecord),
      rec ∈ recordsFor m net n qs → rec.ai_letter = "NONE" → rec.is_correct = false := by
  intro qs
  induction qs with
  | nil => intro n rec h; simp [recordsFor] at h
  | cons q rest ih =>
    intro n rec h
    rcases List.mem_cons.mp h with h1 | h2
    · rw [h1]; exact recordFor_none_incorrect m net (n + 1) q
    · exact ih (n + 1) rec h2

/-- The results and accuracy of test_single_model_threaded, characterised via
the per-question record list. -/
theorem test_single_model_eq (net : String → HttpOutcome) (mi : ModelInfo)
    (qs : List PreparedQuestion) :
    (test_single_model_threaded net mi qs).1 = recordsFor mi.name net 0 qs ∧
    (test_single_model_threaded net mi qs).2.1 =
      (if 0 < qs.length then
        (((recordsFor mi.name net 0 qs).countP (fun rec => rec.is_correct) : ℚ) /
          (qs.length : ℚ)) * 100
       else 0) := by
  have hres : (test_single_model_threaded net mi qs).1 = (qs.foldl (workerStep mi.name net)
        { results := [], correct_count := 0, total_count := 0, extraction_failures := 0 }).results := rfl
  have hacc : (test_single_model_threaded net mi qs).2.1 =
      (if 0 < (qs.foldl (workerStep mi.name net)
        { results := [], correct_count := 0, total_count := 0, extraction_failures := 0 }).total_count then
        (((qs.foldl (workerStep mi.name net)
        { results := [], correct_count := 0, total_count := 0, extraction_failures := 0 }).correct_count : ℚ) / ((qs.foldl (workerStep mi.name net)
        { results := [], correct_count := 0, total_count := 0, extraction_failures := 0 }).total_count : ℚ)) * 100
       else 0) := rfl
  obtain ⟨h1, h2, h3⟩ := workerFold_spec mi.name net qs
    { results := [], correct_count := 0, total_count := 0, extraction_failures := 0 }
  have h1' : (qs.foldl (workerStep mi.name net)
        { results := [], correct_count := 0, total_count := 0, extraction_failures := 0 }).results = recordsFor mi.name net 0 qs := by simpa using h1
  have h2' : (qs.foldl (workerStep mi.name net)
        { results := [], correct_count := 0, total_count := 0, extraction_failures := 0 }).total_count = qs.length := by simpa using h2
  have h3' : (qs.foldl (workerStep mi.name net)
        { results := [], correct_count := 0, total_count := 0, extraction_failures := 0 }).correct_count =
      (recordsFor mi.name net 0 qs).countP (fun rec => rec.is_correct) := by simpa using h3
  rw [hres, hacc, h1', h2', h3']
  exact ⟨rfl, rfl⟩

/-! ## C2 -/

/-- C2 (amended): over a non-empty prepared-question sequence the worker
produces one record per asked question (questions whose response yielded no
extractable letter included, scored incorrect, never excluded), and the
accuracy value it reports is the percentage
(correct_count / total_count) * 100, not the bare fraction
correct_count / total_count that the claim states (see the counterexample:
7 correct of 10 reports 70, not 7/10). -/
theorem worker_accuracy (net : String → HttpOutcome) (mi : ModelInfo)
    (qs : List PreparedQuestion) (h : qs ≠ []) :
    (test_single_model_threaded net mi qs).1.length = qs.length ∧
    (test_single_model_threaded net mi qs).2.1 =
      (((test_single_model_threaded net mi qs).1.countP (fun rec => rec.is_correct) : ℚ) /
        (qs.length : ℚ)) * 100 ∧
    ∀ rec ∈ (test_single_model_threaded net mi qs).1,
      rec.ai_letter = "NONE" → rec.is_correct = false := by
  obtain ⟨e1, e2⟩ := test_single_model_eq net mi qs
  have hpos : 0 < qs.length := List.length_pos.mpr h
  refine ⟨?_, ?_, ?_⟩
  · rw [e1, recordsFor_length]
  · rw [e1, e2, if_pos hpos]
  · intro rec hrec
    rw [e1] at hrec
    exact recordsFor_none_incorrect mi.name net qs 0 rec hrec

/-- A prepared question used by the concrete worker runs. -/
def cexQ (n : Nat) (p : String) : PreparedQuestion :=
  { index := n, question := "q", correct_answer := "x", correct_letter := some "A",
    options := [], prompt := p, category := "c", difficulty := "d", shuffled_answers := [] }

/-- Ten prepared questions with distinct prompts. -/
def cexQs : List PreparedQuestion :=
  [cexQ 1 "p1", cexQ 2 "p2", cexQ 3 "p3", cexQ 4 "p4", cexQ 5 "p5",
   cexQ 6 "p6", cexQ 7 "p7", cexQ 8 "p8", cexQ 9 "p9", cexQ 10 "p10"]

/-- A network behaviour answering A (correct) on seven prompts, B (wrong) on
two, and letter-free text (an extraction failure) on one. -/
def cexNet : String → HttpOutcome := fun p =>
  if p = "p8" || p = "p9" then .ok 200 "B"
  else if p = "p10" then .ok 200 "no letters" else .ok 200 "A"

/-- A model descriptor for the concrete worker runs. -/
def cexModel : ModelInfo := { name := "llama3", size := 0 }

/-- C2 counterexample: a worker that answers 7 of 10 questions correctly and
fails letter extraction on 1 (scored incorrect, still counted) reports the
accuracy value 70 — the percentage (7/10)*100 — which is not the bare
fraction 7/10 stated by the claim. -/
theorem worker_accuracy_cex :
    ((test_single_model_threaded cexNet cexModel cexQs).1.countP
      (fun rec => rec.is_correct)) = 7 ∧
    (test_single_model_threaded cexNet cexModel cexQs).1.length = 10 ∧
    ((test_single_model_threaded cexNet cexModel cexQs).1.countP
      (fun rec => rec.ai_letter == "NONE")) = 1 ∧
    (test_single_model_threaded cexNet cexModel cexQs).2.1 = 70 ∧
    (test_single_model_threaded cexNet cexModel cexQs).2.1 ≠ 7 / 10 := by
  obtain ⟨e1, e2⟩ := test_single_model_eq cexNet cexModel cexQs
  refine ⟨rfl, rfl, rfl, ?_, ?_⟩
  · rw [e2, show cexQs.length = 10 from rfl,
      show (recordsFor cexModel.name cexNet 0 cexQs).countP (fun rec => rec.is_correct) = 7 from rfl]
    norm_num
  · rw [e2, show cexQs.length = 10 from rfl,
      show (recordsFor cexModel.name cexNet 0 cexQs).countP (fun rec => rec.is_correct) = 7 from rfl]
    norm_num

/-- Witness for C2 at the concrete ten-question run. -/
theorem worker_accuracy_witness :
    (test_single_model_threaded cexNet cexModel cexQs).1.length = cexQs.length ∧
    (test_single_model_threaded cexNet cexModel cexQs).2.1 =
      (((test_single_model_threaded cexNet cexModel cexQs).1.countP
        (fun rec => rec.is_correct) : ℚ) / (cexQs.length : ℚ)) * 100 ∧
    ∀ rec ∈ (test_single_model_threaded cexNet cexModel cexQs).1,
      rec.ai_letter = "NONE" → rec.is_correct = false :=
  worker_accuracy cexNet cexModel cexQs (by decide)

/-! ## C7 -/

theorem recordFor_failure (m : String) (net : String → HttpOutcome) (n : Nat)
    (q : PreparedQuestion) (h : (ask_model m q.prompt (net q.prompt)).1 = false) :
    (recordFor m net n q).ai_letter = "ERROR" ∧ (recordFor m net n q).is_correct = false ∧
    (recordFor m net n q).question_num = n := by
  have hask : ask_model m q.prompt (net q.prompt)
      = (false, (ask_model m q.prompt (net q.prompt)).2) := Prod.ext h rfl
  unfold recordFor
  rw [hask]
  exact ⟨rfl, rfl, rfl⟩

/-- C7: a run over N prepared questions always produces exactly N records
(one per question, never a retry); a question on which ask_model reports
failure gets, at its own position, a single record with sentinel letter
ERROR and is_correct false (and the worker proceeds: every other question
still has its record at its own position). -/
theorem worker_error_records (net : String → HttpOutcome) (mi : ModelInfo)
    (qs : List PreparedQuestion) :
    (test_single_model_threaded net mi qs).1.length = qs.length ∧
    ∀ i q, qs.get? i = some q →
      (ask_model mi.name q.prompt (net q.prompt)).1 = false →
      ∃ rec, (test_single_model_threaded net mi qs).1.get? i = some rec ∧
        rec.ai_letter = "ERROR" ∧ rec.is_correct = false ∧ rec.question_num = i + 1 := by
  obtain ⟨e1, _⟩ := test_single_model_eq net mi qs
  refine ⟨by rw [e1, recordsFor_length], ?_⟩
  intro i q hq hfail
  refine ⟨recordFor mi.name net (0 + i + 1) q, ?_, ?_⟩
  · rw [e1, recordsFor_get?, hq, Option.map_some']
  · simpa using recordFor_failure mi.name net (0 + i + 1) q hfail

/-- A network behaviour that times out on every request. -/
def cexFailNet : String → HttpOutcome := fun _ => .timeout

/-- Witness for C7: a one-question run in which the request fails produces
exactly one record, an ERROR record at position 0. -/
theorem worker_error_records_witness :
    (test_single_model_threaded cexFailNet cexModel [cexQ 1 "p1"]).1.length =
      [cexQ 1 "p1"].length ∧
    ∃ rec, (test_single_model_threaded cexFailNet cexModel [cexQ 1 "p1"]).1.get? 0 = some rec ∧
      rec.ai_letter = "ERROR" ∧ rec.is_correct = false ∧ rec.question_num = 0 + 1 :=
  have h := worker_error_records cexFailNet cexModel [cexQ 1 "p1"]
  ⟨h.1, h.2 0 (cexQ 1 "p1") rfl rfl⟩

/-! ## The shuffle is a permutation -/

theorem set_cons_perm {α : Type} : ∀ (t : List α) (m : Nat) (a b : α),
    t.get? m = some b → List.Perm (b :: t.set m a) (a :: t) := by
  intro t
  induction t with
  | nil => intro m a b h; simp at h
  | cons c t2 ih =>
    intro m a b h
    cases m with
    | zero =>
      have hb : c = b := by simpa using h
      subst hb
      simpa using List.Perm.swap a c t2
    | succ k =>
      have h2 : t2.get? k = some b := by simpa using h
      have ihk := ih k a b h2
      have s1 : List.Perm (b :: c :: t2.set k a) (c :: b :: t2.set k a) :=
        List.Perm.swap c b _
      have s2 : List.Perm (c :: b :: t2.set k a) (c :: a :: t2) := List.Perm.cons c ihk
      have s3 : List.Perm (c :: a :: t2) (a :: c :: t2) := List.Perm.swap a c t2
      simpa using (s1.trans s2).trans s3

theorem set_set_perm {α : Type} : ∀ (l : List α) (i j : Nat) (a b : α),
    l.get? i = some a → l.get? j = some b → List.Perm ((l.set i b).set j a) l := by
  intro l
  induction l with
  | nil => intro i j a b h1 _; simp at h1
  | cons c t ih =>
    intro i j a b h1 h2
    cases i with
    | zero =>
      have ha : c = a := by simpa using h1
      subst ha
      cases j with
      | zero =>
        have hb : c = b := by simpa using h2
        subst hb
        simp
      | succ k =>
        have h2' : t.get? k = some b := by simpa using h2
        simpa using set_cons_perm t k c b h2'
    | succ m =>
      have h1' : t.get? m = some a := by simpa using h1
      cases j with
      | zero =>
        have hb : c = b := by simpa using h2
        subst hb
        simpa using set_cons_perm t m c a h1'
      | succ k =>
        have h2' : t.get? k = some b := by simpa using h2
        simpa using List.Perm.cons c (ih m k a b h1' h2')

theorem swapL_perm {α : Type} (l : List α) (i j : Nat) : List.Perm (swapL l i j) l := by
  unfold swapL
  cases h1 : l.get? i with
  | none => simp
  | some a =>
    cases h2 : l.get? j with
    | none => simp
    | some b => simpa using set_set_perm l i j a b h1 h2

theorem shuffleAux_perm {α : Type} : ∀ (fuel : Nat) (x : List α) (g : RngState),
    List.Perm (shuffleAux x g fuel).1 x := by
  intro fuel
  induction fuel with
  | zero => intro x g; exact List.Perm.refl x
  | succ i ih =>
    intro x g
    simp only [shuffleAux]
    exact (ih _ _).trans (swapL_perm x (i + 1) _)

/-- random.shuffle returns a permutation of its input. -/
theorem pyShuffle_perm {α : Type} (x : List α) (g : RngState) :
    List.Perm (pyShuffle x g).1 x :=
  shuffleAux_perm _ x g

/-! ## The letter-assignment loop -/

theorem optLoop_length (correct : String) :
    ∀ (l : List String) (i : Nat) (cl : Option String) (opts : List String),
      (optLoop correct i cl opts l).2.length = opts.length + l.length := by
  intro l
  induction l with
  | nil => intro i cl opts; simp [optLoop]
  | cons a rest ih =>
    intro i cl opts
    simp only [optLoop, ih]
    simp
    omega

theorem optLoop_get_lt (correct : String) :
    ∀ (l : List String) (i : Nat) (cl : Option String) (opts : List String) (m : Nat),
      m < opts.length → (optLoop correct i cl opts l).2.get? m = opts.get? m := by
  intro l
  induction l with
  | nil => intro i cl opts m _; simp [optLoop]
  | cons a rest ih =>
    intro i cl opts m hm
    simp only [optLoop]
    rw [ih (i + 1) _ _ m (by simp; omega)]
    exact List.get?_append hm

theorem optLoop_cl_of_not_mem (correct : String) :
    ∀ (l : List String) (i : Nat) (cl : Option String) (opts : List String),
      correct ∉ l → (optLoop correct i cl opts l).1 = cl := by
  intro l
  induction l with
  | nil => intro i cl opts _; rfl
  | cons a rest ih =>
    intro i cl opts h
    simp only [optLoop]
    rw [ih (i + 1) _ _ (fun hmem => h (List.mem_cons_of_mem a hmem))]
    rw [if_neg (fun heq => h (by rw [← heq]; exact List.mem_cons_self a rest))]

theorem optLoop_found (correct : String) :
    ∀ (l : List String) (i : Nat) (cl : Option String) (opts : List String),
      correct ∈ l →
      ∃ k, k < l.length ∧
        (optLoop correct i cl opts l).1 = some (String.mk [Char.ofNat (65 + i + k)]) ∧
        (optLoop correct i cl opts l).2.get? (opts.length + k) =
          some (String.mk [Char.ofNat (65 + i + k)] ++ ") " ++ correct) := by
  intro l
  induction l with
  | nil => intro i cl opts h; simp at h
  | cons a rest ih =>
    intro i cl opts hmem
    by_cases hr : correct ∈ rest
    · obtain ⟨k, hk, hcl, hget⟩ := ih (i + 1)
        (if a = correct then some (String.mk [Char.ofNat (65 + i)]) else cl)
        (opts ++ [String.mk [Char.ofNat (65 + i)] ++ ") " ++ a]) hr
      refine ⟨k + 1, by simp; omega, ?_, ?_⟩
      · rw [show 65 + i + (k + 1) = 65 + (i + 1) + k by omega]
        simpa [optLoop] using hcl
      · rw [show opts.length + (k + 1) = (opts ++ [String.mk [Char.ofNat (65 + i)] ++ ") " ++ a]).length + k by simp; omega]
        rw [show 65 + i + (k + 1) = 65 + (i + 1) + k by omega]
        simpa [optLoop] using hget
    · have ha : a = correct := by
        rcases List.mem_cons.mp hmem with h | h
        · exact h.symm
        · exact absurd h hr
      refine ⟨0, by simp, ?_, ?_⟩
      · simp only [optLoop, if_pos ha]
        rw [optLoop_cl_of_not_mem correct rest (i + 1) _ _ hr]
        simp
      · simp only [optLoop, if_pos ha]
        rw [optLoop_get_lt correct rest (i + 1) _ _ (opts.length + 0) (by simp)]
        rw [show opts.length + 0 = opts.length by omega]
        rw [List.get?_concat_length]
        rw [ha]
        simp

/-! ## C5 -/

/-- The row-keeping test of prepare_questions: at least 2 usable incorrect
answers (the negation of the skip guard). -/
def keepRow (r : Row) : Bool := decide (2 ≤ (usableIncorrects r).length)

theorem prepareLoop_proj : ∀ (rows : List Row) (g : RngState) (acc : List PreparedQuestion),
    ((prepareLoop rows g acc).map (fun p => p.question) =
      acc.map (fun p => p.question) ++ (rows.filter keepRow).map (fun r => r.question)) ∧
    ((prepareLoop rows g acc).map (fun p => p.correct_answer) =
      acc.map (fun p => p.correct_answer) ++ (rows.filter keepRow).map (fun r => r.correct_answer)) ∧
    ((prepareLoop rows g acc).map (fun p => p.index) =
      acc.map (fun p => p.index) ++ List.range' (acc.length + 1) (rows.filter keepRow).length) := by
  intro rows
  induction rows with
  | nil => intro g acc; simp [prepareLoop]
  | cons row rest ih =>
    intro g acc
    simp only [prepareLoop]
    by_cases hlt : (usableIncorrects row).length < 2
    · have hk : keepRow row = false := by
        simp only [keepRow, decide_eq_false_iff_not]; omega
      rw [if_pos hlt, List.filter_cons_of_neg (by simp [hk])]
      exact ih g acc
    · have hk : keepRow row = true := by
        simp only [keepRow, decide_eq_true_eq]; omega
      rw [if_neg hlt, List.filter_cons_of_pos hk]
      obtain ⟨ih1, ih2, ih3⟩ :=
        ih (pyShuffle (row.correct_answer :: usableIncorrects row) g).2
          (acc ++ [{
            index := acc.length + 1
            question := row.question
            correct_answer := row.correct_answer
            correct_letter := (buildOptions row.correct_answer
              (pyShuffle (row.correct_answer :: usableIncorrects row) g).1).1
            options := (buildOptions row.correct_answer
              (pyShuffle (row.correct_answer :: usableIncorrects row) g).1).2
            prompt := mkPrompt row.question (buildOptions row.correct_answer
              (pyShuffle (row.correct_answer :: usableIncorrects row) g).1).2
            category := row.category.getD "Unknown"
            difficulty := row.difficulty.getD "Unknown"
            shuffled_answers := (pyShuffle (row.correct_answer :: usableIncorrects row) g).1 }])
      refine ⟨?_, ?_, ?_⟩
      · rw [ih1]; simp
      · rw [ih2]; simp
      · rw [ih3]
        simp [List.range'_succ]

/-- C5: prepare_questions keeps a row exactly when it has at least 2 usable
incorrect answers (rows with fewer are silently dropped, not an error); the
surviving PreparedQuestions carry the kept rows in the original row order
(only option order within a question is shuffled, never question order) and
are numbered 1..N consecutively. -/
theorem prepare_questions_rows (g : RngState) (df : List Row) (max_questions : Option Nat) :
    (prepare_questions g df max_questions).map (fun p => p.question) =
      ((cappedRows df max_questions).filter keepRow).map (fun r => r.question) ∧
    (prepare_questions g df max_questions).map (fun p => p.correct_answer) =
      ((cappedRows df max_questions).filter keepRow).map (fun r => r.correct_answer) ∧
    (prepare_questions g df max_questions).map (fun p => p.index) =
      List.range' 1 (prepare_questions g df max_questions).length := by
  obtain ⟨h1, h2, h3⟩ := prepareLoop_proj (cappedRows df max_questions) (seedRng 42) []
  have e : prepare_questions g df max_questions =
      prepareLoop (cappedRows df max_questions) (seedRng 42) [] := rfl
  rw [e]
  have hlen : (prepareLoop (cappedRows df max_questions) (seedRng 42) []).length =
      ((cappedRows df max_questions).filter keepRow).length := by
    have := congrArg List.length h1
    simpa using this
  refine ⟨by simpa using h1, by simpa using h2, ?_⟩
  rw [hlen]
  simpa using h3

/-! ## C10 -/

theorem buildOptions_eq (c : String) (s : List String) :
    buildOptions c s = optLoop c 0 none [] s := rfl

theorem prepareLoop_wellformed : ∀ (rows : List Row) (g : RngState)
    (acc : List PreparedQuestion) (p : PreparedQuestion),
    p ∈ prepareLoop rows g acc →
    p ∈ acc ∨
    ∃ k, k < p.options.length ∧ 3 ≤ p.options.length ∧ p.options.length ≤ 4 ∧
      p.correct_letter = some (String.mk [Char.ofNat (65 + k)]) ∧
      p.options.get? k = some (String.mk [Char.ofNat (65 + k)] ++ ") " ++ p.correct_answer) := by
  intro rows
  induction rows with
  | nil => intro g acc p hp; exact Or.inl hp
  | cons row rest ih =>
    intro g acc p hp
    simp only [prepareLoop] at hp
    by_cases hlt : (usableIncorrects row).length < 2
    · rw [if_pos hlt] at hp
      exact ih g acc p hp
    · rw [if_neg hlt] at hp
      rcases ih _ _ p hp with hacc | hgood
      · rcases List.mem_append.mp hacc with hin | hin
        · exact Or.inl hin
        · have hpq := List.eq_of_mem_singleton hin
          refine Or.inr ?_
          have hperm := pyShuffle_perm (row.correct_answer :: usableIncorrects row) g
          have hmem : row.correct_answer ∈
              (pyShuffle (row.correct_answer :: usableIncorrects row) g).1 :=
            hperm.mem_iff.mpr (List.mem_cons_self _ _)
          have hlen2 : (pyShuffle (row.correct_answer :: usableIncorrects row) g).1.length =
              (usableIncorrects row).length + 1 := by
            rw [hperm.length_eq]; simp
          have hle : (usableIncorrects row).length ≤ 3 := by
            have h3 := List.length_filterMap_le (fun a =>
              match a with
              | none => none
              | some s => if strip s.data = [] then none else some s)
              [row.incorrect_answer_1, row.incorrect_answer_2, row.incorrect_answer_3]
            simpa [usableIncorrects] using h3
          obtain ⟨k, hk, hcl, hget⟩ := optLoop_found row.correct_answer
            (pyShuffle (row.correct_answer :: usableIncorrects row) g).1 0 none [] hmem
          have holen : (optLoop row.correct_answer 0 none []
              (pyShuffle (row.correct_answer :: usableIncorrects row) g).1).2.length =
              (pyShuffle (row.correct_answer :: usableIncorrects row) g).1.length := by
            rw [optLoop_length]; simp
          subst hpq
          simp only [buildOptions_eq]
          refine ⟨k, ?_, ?_, ?_, ?_, ?_⟩
          · rw [holen]
            exact hk
          · rw [holen]
            omega
          · rw [holen]
            omega
          · simpa using hcl
          · simpa using hget
      · exact Or.inr hgood

/-- C10: every PreparedQuestion produced by prepare_questions has a
correct_letter that is not None but the letter chr(65+k) of some option
position k, one of A/B/C/D; the options list has 3 or 4 entries; and the
option labelled correct_letter carries text equal to the row correct
answer. -/
theorem prepare_questions_wellformed (g : RngState) (df : List Row)
    (max_questions : Option Nat) (p : PreparedQuestion)
    (hp : p ∈ prepare_questions g df max_questions) :
    ∃ k, k < p.options.length ∧ 3 ≤ p.options.length ∧ p.options.length ≤ 4 ∧
      p.correct_letter = some (String.mk [Char.ofNat (65 + k)]) ∧
      String.mk [Char.ofNat (65 + k)] ∈ (["A", "B", "C", "D"] : List String) ∧
      p.options.get? k = some (String.mk [Char.ofNat (65 + k)] ++ ") " ++ p.correct_answer) := by
  rcases prepareLoop_wellformed (cappedRows df max_questions) (seedRng 42) [] p hp
    with h | ⟨k, hk, h3, h4, hcl, hget⟩
  · simp at h
  · refine ⟨k, hk, h3, h4, hcl, ?_, hget⟩
    have hk4 : k < 4 := by omega
    interval_cases k <;> decide

/-- A demonstration row with three usable incorrect answers. -/
def demoRow : Row :=
  { question := "What color is the sky?", correct_answer := "Blue",
    incorrect_answer_1 := some "Red", incorrect_answer_2 := some "Green",
    incorrect_answer_3 := some "Yellow", category := none, difficulty := none }

/-- Witness for C10 on a concrete one-row table. -/
theorem prepare_questions_wellformed_witness :
    ∃ k, k < ((prepare_questions 0 [demoRow] none).head (by decide)).options.length ∧
      3 ≤ ((prepare_questions 0 [demoRow] none).head (by decide)).options.length ∧
      ((prepare_questions 0 [demoRow] none).head (by decide)).options.length ≤ 4 ∧
      ((prepare_questions 0 [demoRow] none).head (by decide)).correct_letter =
        some (String.mk [Char.ofNat (65 + k)]) ∧
      String.mk [Char.ofNat (65 + k)] ∈ (["A", "B", "C", "D"] : List String) ∧
      ((prepare_questions 0 [demoRow] none).head (by decide)).options.get? k =
        some (String.mk [Char.ofNat (65 + k)] ++ ") " ++
          ((prepare_questions 0 [demoRow] none).head (by decide)).correct_answer) :=
  prepare_questions_wellformed 0 [demoRow] none _ (List.head_mem (by decide))

/-! ## C4 -/

theorem card_newKeys_cons_mem {k : String} {K U : List String} (hk : k ∈ U) :
    ((k :: K).toFinset \ U.toFinset).card = (K.toFinset \ U.toFinset).card := by
  rw [List.toFinset_cons, Finset.insert_sdiff_of_mem _ (by simpa using hk)]

theorem card_newKeys_cons {k : String} {K U : List String} (hk : k ∉ U) :
    ((k :: K).toFinset \ U.toFinset).card =
      (K.toFinset \ (U ++ [k]).toFinset).card + 1 := by
  have e1 : (k :: K).toFinset \ U.toFinset = insert k (K.toFinset \ U.toFinset) := by
    rw [List.toFinset_cons, Finset.insert_sdiff_of_not_mem]
    simpa using hk
  have e2 : K.toFinset \ (U ++ [k]).toFinset = (K.toFinset \ U.toFinset).erase k := by
    ext x
    simp only [Finset.mem_sdiff, List.mem_toFinset, List.mem_append, List.mem_singleton,
      Finset.mem_erase, not_or]
    tauto
  rw [e1, e2]
  have hmem : k ∈ insert k (K.toFinset \ U.toFinset) := Finset.mem_insert_self _ _
  have hc := Finset.card_erase_add_one hmem
  rw [Finset.erase_insert_eq_erase] at hc
  omega

theorem mergeLoop_spec (unesc : String → String) :
    ∀ (batch all : List FetchedQ) (uniq : List String) (n : Nat),
      uniq = all.map (uniqueKey unesc) → uniq.Nodup →
      ((mergeLoop unesc batch all uniq n).2.1 =
        (mergeLoop unesc batch all uniq n).1.map (uniqueKey unesc)) ∧
      (mergeLoop unesc batch all uniq n).2.1.Nodup ∧
      (mergeLoop unesc batch all uniq n).1.length =
        all.length + ((batch.map (uniqueKey unesc)).toFinset \ uniq.toFinset).card ∧
      (mergeLoop unesc batch all uniq n).2.2 =
        n + ((batch.map (uniqueKey unesc)).toFinset \ uniq.toFinset).card := by
  intro batch
  induction batch with
  | nil =>
    intro all uniq n hsync hnd
    subst hsync
    simp [mergeLoop, hnd]
  | cons q rest ih =>
    intro all uniq n hsync hnd
    simp only [mergeLoop]
    by_cases hmem : uniqueKey unesc q ∈ uniq
    · rw [if_pos hmem, List.map_cons,
        card_newKeys_cons_mem (K := rest.map (uniqueKey unesc)) hmem]
      exact ih all uniq n hsync hnd
    · rw [if_neg hmem]
      have hsync2 : uniq ++ [uniqueKey unesc q] = (all ++ [q]).map (uniqueKey unesc) := by
        simp [hsync]
      have hnd2 : (uniq ++ [uniqueKey unesc q]).Nodup := by
        simp [List.nodup_append, hnd, hmem]
      obtain ⟨ih1, ih2, ih3, ih4⟩ :=
        ih (all ++ [q]) (uniq ++ [uniqueKey unesc q]) (n + 1) hsync2 hnd2
      have hcard := card_newKeys_cons (K := rest.map (uniqueKey unesc)) hmem
      refine ⟨ih1, ih2, ?_, ?_⟩
      · rw [ih3, List.map_cons, hcard]
        simp only [List.length_append, List.length_cons, List.length_nil]
        omega
      · rw [ih4, List.map_cons, hcard]
        omega

/-- C4: on a successful merge of a batch into a synchronised state (the
unique-key set is exactly the key list of the accumulated questions, without
duplicates), the accumulated question list never acquires two entries with
the same (question, correct_answer) key, the state stays synchronised, and
both the question list and the key set grow by exactly the number of
genuinely new keys in the batch — duplicates inside the batch or already
present from earlier fetch calls are silently dropped. -/
theorem mergeBatch_unique (unesc : String → String) (all_questions : List FetchedQ)
    (unique_questions : List String) (batch : List FetchedQ)
    (hsync : unique_questions = all_questions.map (uniqueKey unesc))
    (hnd : unique_questions.Nodup) :
    ((mergeBatch unesc all_questions unique_questions batch).1.map (uniqueKey unesc)).Nodup ∧
    (mergeBatch unesc all_questions unique_questions batch).2.1 =
      (mergeBatch unesc all_questions unique_questions batch).1.map (uniqueKey unesc) ∧
    (mergeBatch unesc all_questions unique_questions batch).1.length =
      all_questions.length +
        ((batch.map (uniqueKey unesc)).toFinset \ unique_questions.toFinset).card ∧
    (mergeBatch unesc all_questions unique_questions batch).2.2 =
      ((batch.map (uniqueKey unesc)).toFinset \ unique_questions.toFinset).card := by
  obtain ⟨h1, h2, h3, h4⟩ := mergeLoop_spec unesc batch all_questions unique_questions 0 hsync hnd
  exact ⟨h1 ▸ h2, h1, h3, by simpa using h4⟩

/-- A batch containing a duplicate (question, correct_answer) pair. -/
def cexBatch : List FetchedQ :=
  [{ question := "q1", correct_answer := "a1" },
   { question := "q1", correct_answer := "a1" },
   { question := "q2", correct_answer := "a2" }]

/-- Witness for C4: merging a three-question batch with one internal
duplicate into the empty state. -/
theorem mergeBatch_unique_witness :
    ((mergeBatch id [] [] cexBatch).1.map (uniqueKey id)).Nodup ∧
    (mergeBatch id [] [] cexBatch).2.1 = (mergeBatch id [] [] cexBatch).1.map (uniqueKey id) ∧
    (mergeBatch id [] [] cexBatch).1.length =
      ([] : List FetchedQ).length +
        ((cexBatch.map (uniqueKey id)).toFinset \ ([] : List String).toFinset).card ∧
    (mergeBatch id [] [] cexBatch).2.2 =
      ((cexBatch.map (uniqueKey id)).toFinset \ ([] : List String).toFinset).card :=
  mergeBatch_unique id [] [] cexBatch rfl List.nodup_nil

/-! ## C8 -/

/-- An environment outcome that yields no new unique question and no
successful token recovery, relative to a set of already-seen keys: a batch
whose keys are all already present (or empty), a token_empty response whose
recovery failed, or any of the counter-incrementing outcomes. -/
def Unproductive (unesc : String → String) (keys : List String) : BatchOutcome → Prop
  | .success qs => ∀ q ∈ qs, uniqueKey unesc q ∈ keys
  | .tokenEmpty recovered => recovered = false
  | .rateLimit => True
  | .noResults => True
  | .otherErr => True

theorem mergeLoop_subsumed (unesc : String → String) :
    ∀ (batch all : List FetchedQ) (uniq : List String) (n : Nat),
      (∀ q ∈ batch, uniqueKey unesc q ∈ uniq) →
      mergeLoop unesc batch all uniq n = (all, uniq, n) := by
  intro batch
  induction batch with
  | nil => intro all uniq n _; rfl
  | cons q rest ih =>
    intro all uniq n h
    simp only [mergeLoop]
    rw [if_pos (h q (List.mem_cons_self q rest))]
    exact ih all uniq n (fun x hx => h x (List.mem_cons_of_mem q hx))

theorem fetchStep_unproductive (unesc : String → String) (st : FetchState)
    (o : BatchOutcome) (h : Unproductive unesc st.unique_questions o) :
    fetchStep unesc st o = { st with consecutive_empty := st.consecutive_empty + 1 } := by
  cases o with
  | success qs =>
    by_cases hq : qs.isEmpty
    · simp [fetchStep, hq]
    · have hsub := mergeLoop_subsumed unesc qs st.all_questions st.unique_questions 0 h
      simp [fetchStep, hq, mergeBatch, hsub]
  | tokenEmpty recovered =>
    have hr : recovered = false := h
    subst hr
    simp [fetchStep]
  | rateLimit => rfl
  | noResults => rfl
  | otherErr => rfl

theorem fetchRun_halts (unesc : String → String) (env : Nat → BatchOutcome) :
    ∀ (fuel i : Nat) (st : FetchState),
      (∀ j, Unproductive unesc st.unique_questions (env j)) →
      15 ≤ st.consecutive_empty + fuel →
      fetchGuard (fetchRun unesc env i fuel st) = false := by
  intro fuel
  induction fuel with
  | zero =>
    intro i st _ hce
    simp only [fetchRun, fetchGuard]
    simp only [Bool.and_eq_false_iff, decide_eq_false_iff_not]
    omega
  | succ f ih =>
    intro i st h hce
    simp only [fetchRun]
    split
    · rw [fetchStep_unproductive unesc st (env i) (h i)]
      apply ih
      · intro j
        exact h j
      · simp only
        omega
    · rename_i hguard
      exact Bool.eq_false_iff.mpr hguard

/-- C8 (amended): the guard of the download_all_4620 loop fails exactly when
the accumulated question count reaches the target (4620) or the
consecutive-empty counter reaches (not strictly exceeds) 15, and the loop
performs no further iteration once the guard fails; and when every remaining
batch outcome yields no new unique question and no successful token recovery,
each iteration raises the counter by exactly one, so the loop halts within 15
further iterations.  (A token_empty outcome whose recovery succeeds resets
the counter to 0 without adding questions, so without that proviso the loop
can iterate indefinitely while the remote yields no new questions — see the
counterexample.) -/
theorem download_loop_termination (unesc : String → String) (env : Nat → BatchOutcome)
    (i : Nat) (st : FetchState) :
    (fetchGuard st = false ↔
      (total_target ≤ st.all_questions.length ∨ 15 ≤ st.consecutive_empty)) ∧
    (∀ fuel, fetchGuard st = false → fetchRun unesc env i fuel st = st) ∧
    ((∀ j, Unproductive unesc st.unique_questions (env j)) →
      fetchGuard (fetchRun unesc env i 15 st) = false) := by
  refine ⟨?_, ?_, ?_⟩
  · simp only [fetchGuard, Bool.and_eq_false_iff, decide_eq_false_iff_not, total_target]
    omega
  · intro fuel hg
    cases fuel with
    | zero => rfl
    | succ f =>
      simp only [fetchRun]
      rw [if_neg (by simp [hg])]
  · intro h
    exact fetchRun_halts unesc env 15 i st h (by omega)

/-- Witness for C8: from the empty state against an environment that always
reports no_results, the loop halts (guard false) within 15 iterations. -/
theorem download_loop_termination_witness :
    fetchGuard (fetchRun id (fun _ => .noResults) 0 15
      { all_questions := [], unique_questions := [], consecutive_empty := 0 }) = false :=
  (download_loop_termination id (fun _ => .noResults) 0
    { all_questions := [], unique_questions := [], consecutive_empty := 0 }).2.2
    (fun _ => trivial)

/-- C8 counterexample: against an environment that never returns a question —
every outcome is token_empty with successful recovery — the loop is still
running after 100 iterations with the counter stuck at 0 and nothing
accumulated (the recovery path resets the counter instead of increasing it),
refuting the claim that the loop cannot iterate forever once the remote
source returns no new questions; and against an always-no_results
environment the loop stops after exactly 15 iterations with the counter
equal to 15, i.e. when the counter reaches 15, not when it strictly exceeds
it. -/
theorem download_loop_cex :
    fetchGuard (fetchRun id (fun _ => .tokenEmpty true) 0 100
      { all_questions := [], unique_questions := [], consecutive_empty := 0 }) = true ∧
    (fetchRun id (fun _ => .tokenEmpty true) 0 100
      { all_questions := [], unique_questions := [], consecutive_empty := 0 }).all_questions = [] ∧
    (fetchRun id (fun _ => .tokenEmpty true) 0 100
      { all_questions := [], unique_questions := [], consecutive_empty := 0 }).consecutive_empty = 0 ∧
    (fetchRun id (fun _ => .noResults) 0 15
      { all_questions := [], unique_questions := [], consecutive_empty := 0 }).consecutive_empty = 15 ∧
    fetchGuard (fetchRun id (fun _ => .noResults) 0 15
      { all_questions := [], unique_questions := [], consecutive_empty := 0 }) = false ∧
    fetchGuard (fetchRun id (fun _ => .noResults) 0 14
      { all_questions := [], unique_questions := [], consecutive_empty := 0 }) = true :=
  ⟨rfl, rfl, rfl, rfl, rfl, rfl⟩

end Trivia
